import Mathlib

/-!
Verification of the `lazyfs` crate: a lenient, error-swallowing directory
reader (`src/lib.rs`).

The OS directory-listing handle (`std::fs::ReadDir`) is modelled as the
finite list of raw results its successive `next()` calls would return:
each slot is `Except.ok entry` (a readable entry) or `Except.error e`
(an entry whose read fails).  The end of the list models the OS reporting
"no more entries".  The crate's `ReadDir` enum, its `Iterator::next`
implementation (which loops, skipping `Some(Err(_))` slots), and the
`read_dir` constructor (which maps any open failure to `ReadDir::Err`)
are translated directly below.  `ε` is the OS error type and `α` the
directory-entry type; the code inspects neither, so both stay abstract.
-/

set_option autoImplicit false

namespace LazyFS

variable {ε α : Type}

/-- The crate's `pub enum ReadDir { Ok(std::fs::ReadDir), Err }`:
either an open OS listing handle (modelled by the list of raw results it
has yet to produce) or the failed sentinel. -/
inductive ReadDir (ε α : Type) where
  | Ok : List (Except ε α) → ReadDir ε α
  | Err : ReadDir ε α

/-- The `loop` inside `Iterator::next` for the `ReadDir::Ok` arm:
ask the raw handle for the next slot; `Some(Ok(de))` is returned,
`Some(Err(_))` is discarded and the loop continues, `None` ends the
sequence.  Returns the yielded entry (if any) and the remaining raw
handle state. -/
def nextOk : List (Except ε α) → Option α × List (Except ε α)
  | [] => (none, [])
  | Except.ok de :: rest => (some de, rest)
  | Except.error _ :: rest => nextOk rest

/-- `impl Iterator for ReadDir { fn next(&mut self) -> Option<DirEntry> }`.
The `&mut self` receiver is made explicit: the call returns the yielded
item together with the updated reader. -/
def ReadDir.next : ReadDir ε α → Option α × ReadDir ε α
  | ReadDir.Err => (none, ReadDir.Err)
  | ReadDir.Ok rd =>
    match nextOk rd with
    | (o, rd') => (o, ReadDir.Ok rd')

/-- `pub fn read_dir<P>(path: P) -> ReadDir`: the outcome of the OS call
`std::fs::read_dir(path)` is passed in as an `Except` value; `Ok(rd)`
wraps the live handle, any failure becomes `ReadDir::Err`. -/
def read_dir : Except ε (List (Except ε α)) → ReadDir ε α
  | Except.ok rd => ReadDir.Ok rd
  | Except.error _ => ReadDir.Err

/-- The reader state after `n` further calls to `next` (each call's
yielded item discarded). -/
def ReadDir.advance : Nat → ReadDir ε α → ReadDir ε α
  | 0, r => r
  | n + 1, r => ReadDir.advance n (ReadDir.next r).2

/-- Number of raw slots the underlying OS handle can still produce. -/
def ReadDir.size : ReadDir ε α → Nat
  | ReadDir.Err => 0
  | ReadDir.Ok rd => rd.length

/-- The entry carried by a raw slot, if it is readable. -/
def slotEntry : Except ε α → Option α
  | Except.ok de => some de
  | Except.error _ => none

/-- Whether the reader is in the `ReadDir::Ok` (Opened) variant. -/
def ReadDir.isOpened : ReadDir ε α → Bool
  | ReadDir.Ok _ => true
  | ReadDir.Err => false

theorem nextOk_some_length {rd rest : List (Except ε α)} {a : α}
    (h : nextOk rd = (some a, rest)) : rest.length < rd.length := by
  induction rd with
  | nil => simp [nextOk] at h
  | cons s t ih =>
    cases s with
    | ok b =>
      simp [nextOk] at h
      simp [← h.2, List.length_cons, Nat.lt_succ_self]
    | error e =>
      have := ih (by simpa [nextOk] using h)
      exact Nat.lt_trans this (Nat.lt_succ_self _)

theorem next_some_size {r r' : ReadDir ε α} {a : α}
    (h : ReadDir.next r = (some a, r')) : ReadDir.size r' < ReadDir.size r := by
  cases r with
  | Err => simp [ReadDir.next] at h
  | Ok rd =>
    cases hrd : nextOk rd with
    | mk o l =>
      rw [ReadDir.next, hrd] at h
      cases h
      exact nextOk_some_length (by simpa using hrd)

/-- Draining the reader: the list of entries obtained by calling `next`
repeatedly until it yields nothing (the caller's `for`/`collect` loop). -/
def ReadDir.drain (r : ReadDir ε α) : List α :=
  match h : ReadDir.next r with
  | (none, _) => []
  | (some a, r') => a :: ReadDir.drain r'
termination_by ReadDir.size r
decreasing_by exact next_some_size h

@[simp] theorem next_Err : (ReadDir.Err : ReadDir ε α).next = (none, ReadDir.Err) := rfl

@[simp] theorem next_Ok_nil : (ReadDir.Ok ([] : List (Except ε α))).next = (none, ReadDir.Ok []) := rfl

@[simp] theorem next_Ok_cons_ok (de : α) (rest : List (Except ε α)) :
    (ReadDir.Ok (Except.ok de :: rest)).next = (some de, ReadDir.Ok rest) := rfl

@[simp] theorem next_Ok_cons_error (e : ε) (rest : List (Except ε α)) :
    (ReadDir.Ok (Except.error e :: rest)).next = (ReadDir.Ok rest).next := rfl

theorem nextOk_none_nil {rd l : List (Except ε α)}
    (h : nextOk rd = (none, l)) : l = [] := by
  induction rd with
  | nil =>
    rw [nextOk] at h
    injection h with h1 h2
    exact h2.symm
  | cons s t ih =>
    cases s with
    | ok b => simp [nextOk] at h
    | error e => exact ih (by simpa [nextOk] using h)

theorem next_none_next {r r' : ReadDir ε α}
    (h : ReadDir.next r = (none, r')) : ReadDir.next r' = (none, r') := by
  cases r with
  | Err =>
    rw [next_Err] at h
    cases h
    rfl
  | Ok rd =>
    cases hrd : nextOk rd with
    | mk o l =>
      rw [ReadDir.next, hrd] at h
      cases h
      have : l = [] := nextOk_none_nil hrd
      subst this
      rfl

theorem drain_unfold (r : ReadDir ε α) :
    ReadDir.drain r =
      match ReadDir.next r with
      | (none, _) => []
      | (some a, r') => a :: ReadDir.drain r' := by
  rw [ReadDir.drain]
  cases hr : ReadDir.next r with
  | mk o r'' => cases o <;> simp [hr]

theorem drain_next_none {r r' : ReadDir ε α}
    (h : ReadDir.next r = (none, r')) : ReadDir.drain r = [] := by
  rw [drain_unfold, h]

theorem drain_next_some {r r' : ReadDir ε α} {a : α}
    (h : ReadDir.next r = (some a, r')) :
    ReadDir.drain r = a :: ReadDir.drain r' := by
  rw [drain_unfold, h]

@[simp] theorem drain_Err : ReadDir.drain (ReadDir.Err : ReadDir ε α) = [] :=
  drain_next_none next_Err

/-- Draining an opened reader produces exactly the readable entries of the
raw handle, in the handle's order. -/
theorem drain_Ok (rd : List (Except ε α)) :
    ReadDir.drain (ReadDir.Ok rd) = rd.filterMap slotEntry := by
  induction rd with
  | nil => simp [drain_next_none next_Ok_nil]
  | cons s t ih =>
    cases s with
    | ok de => rw [drain_next_some (next_Ok_cons_ok de t), ih]; rfl
    | error e =>
      rw [drain_unfold, next_Ok_cons_error, ← drain_unfold, ih]
      rfl

@[simp] theorem advance_zero (r : ReadDir ε α) : ReadDir.advance 0 r = r := rfl

@[simp] theorem advance_succ (n : Nat) (r : ReadDir ε α) :
    ReadDir.advance (n + 1) r = ReadDir.advance n (ReadDir.next r).2 := rfl

@[simp] theorem advance_Err (n : Nat) :
    ReadDir.advance n (ReadDir.Err : ReadDir ε α) = ReadDir.Err := by
  induction n with
  | zero => rfl
  | succ m ih => simpa using ih

@[simp] theorem advance_Ok_nil (n : Nat) :
    ReadDir.advance n (ReadDir.Ok ([] : List (Except ε α))) = ReadDir.Ok [] := by
  induction n with
  | zero => rfl
  | succ m ih => simpa using ih

theorem next_snd_isOpened (r : ReadDir ε α) :
    (ReadDir.next r).2.isOpened = r.isOpened := by
  cases r with
  | Err => rfl
  | Ok rd =>
    cases hrd : nextOk rd with
    | mk o l => simp [ReadDir.next, hrd, ReadDir.isOpened]

theorem advance_isOpened (n : Nat) (r : ReadDir ε α) :
    (ReadDir.advance n r).isOpened = r.isOpened := by
  induction n generalizing r with
  | zero => rfl
  | succ m ih => rw [advance_succ, ih, next_snd_isOpened]

theorem nextOk_all_error {rd : List (Except ε α)}
    (h : ∀ s ∈ rd, slotEntry s = none) : nextOk rd = (none, []) := by
  induction rd with
  | nil => rfl
  | cons s t ih =>
    cases s with
    | ok de => simpa [slotEntry] using h _ (List.mem_cons_self _ _)
    | error e =>
      rw [nextOk]
      exact ih fun x hx => h x (List.mem_cons_of_mem _ hx)

/-- C1: for an Opened reader, a slot for which the OS reports an error is
discarded by `next`: the call behaves exactly as if the bad slot were absent,
both for the single call (same yielded item, same successor state) and for
the whole remaining iteration (same drained entry list) — the bad slot is
neither yielded nor does it end the sequence. -/
theorem C1_error_slot_skipped (e : ε) (rest : List (Except ε α)) :
    (ReadDir.Ok (Except.error e :: rest)).next = (ReadDir.Ok rest).next ∧
    (ReadDir.Ok (Except.error e :: rest)).drain = (ReadDir.Ok rest).drain := by
  refine ⟨next_Ok_cons_error e rest, ?_⟩
  rw [drain_Ok, drain_Ok, List.filterMap_cons]
  rfl

/-- C2: `read_dir` is a total function into `ReadDir` (it never returns or
raises an error to the caller): when the OS open succeeds with handle `rd`
the result is the Opened state wrapping that same live handle, and on any
OS open failure the result is the Failed state. -/
theorem C2_read_dir_never_fails :
    (∀ rd : List (Except ε α), read_dir (Except.ok rd) = ReadDir.Ok rd) ∧
    (∀ e : ε, read_dir (Except.error e) = (ReadDir.Err : ReadDir ε α)) :=
  ⟨fun _ => rfl, fun _ => rfl⟩

/-- C3: a Failed reader is absorbing: after any number `n` of further
`next` calls it is still `Err`, and the call made at that point yields no
entry and returns the end-of-sequence marker.  `Err` holds no OS handle,
so no change of the underlying filesystem can influence this. -/
theorem C3_failed_yields_nothing_forever (n : Nat) :
    ReadDir.advance n (ReadDir.Err : ReadDir ε α) = ReadDir.Err ∧
    (ReadDir.advance n (ReadDir.Err : ReadDir ε α)).next = (none, ReadDir.Err) := by
  refine ⟨advance_Err n, ?_⟩
  rw [advance_Err]
  exact next_Err

/-- C4: when the OS listing has no readable entry left (every remaining raw
slot errors, or there are none), the OS reports end of listing during the
`next` call: the call yields nothing, and the reader moves to the exhausted
handle `Ok []` — the code's equivalent exhausted terminal state, from which
every later call again yields nothing and stays put. -/
theorem C4_end_of_listing_terminal (rd : List (Except ε α))
    (h : ∀ s ∈ rd, slotEntry s = none) :
    (ReadDir.Ok rd).next = (none, ReadDir.Ok []) ∧
    ∀ n, (ReadDir.advance n (ReadDir.Ok ([] : List (Except ε α)))).next
        = (none, ReadDir.Ok []) := by
  constructor
  · rw [ReadDir.next, nextOk_all_error h]
  · intro n
    rw [advance_Ok_nil]
    exact next_Ok_nil

theorem C4_end_of_listing_terminal_witness :
    (∀ s ∈ ([Except.error 7] : List (Except Nat Nat)), slotEntry s = none) ∧
    ((ReadDir.Ok ([Except.error 7] : List (Except Nat Nat))).next
        = (none, ReadDir.Ok []) ∧
     ∀ n, (ReadDir.advance n (ReadDir.Ok ([] : List (Except Nat Nat)))).next
        = (none, ReadDir.Ok [])) :=
  ⟨by decide, C4_end_of_listing_terminal [Except.error 7] (by decide)⟩

/-- C5: for a directory that opens successfully and whose raw listing `raw`
contains no individually unreadable entry, draining the reader returned by
`read_dir` yields exactly the OS's raw listing — equality as lists, hence in
particular equality of entry sets modulo order. -/
theorem C5_faithful_on_clean_directory (raw : List α) :
    (read_dir (ε := ε) (Except.ok (raw.map Except.ok))).drain = raw := by
  rw [read_dir, drain_Ok, List.filterMap_map]
  simp [Function.comp_def, slotEntry]

/-- C6: when the OS open fails — the path does not exist, is not a
directory, or errors in any other way, all of which reach the code as the
non-`Ok` arm — `read_dir` returns a reader (no error is raised: both
`read_dir` and `drain` are total functions) and draining it yields zero
entries. -/
theorem C6_failed_open_drains_empty (e : ε) :
    (read_dir (Except.error e) : ReadDir ε α).drain = [] := by
  rw [read_dir, drain_Err]

/-- C7: once a `next` call has returned the end-of-sequence marker —
whether the reader was `Err` from an open-time failure or an Opened reader
whose listing ended — every later call returns the marker again: after any
number `n` of further calls the reader yields no entry and stays in the
same ended state (and, being a total function, never raises an error). -/
theorem C7_ended_stays_ended {r r' : ReadDir ε α}
    (h : ReadDir.next r = (none, r')) :
    ∀ n, (ReadDir.advance n r').next = (none, r') := by
  have h' := next_none_next h
  intro n
  induction n with
  | zero => exact h'
  | succ m ih =>
    rw [advance_succ, h']
    exact ih

theorem C7_ended_stays_ended_witness :
    (ReadDir.Err : ReadDir Nat Nat).next = (none, ReadDir.Err) ∧
    (ReadDir.advance 3 (ReadDir.Err : ReadDir Nat Nat)).next
        = (none, ReadDir.Err) :=
  ⟨rfl, @C7_ended_stays_ended Nat Nat ReadDir.Err ReadDir.Err rfl 3⟩

/-- C8: the produced sequence is finite: draining any reader — defined by
calling `next` until it yields nothing, and itself a terminating function —
yields at most as many entries as the raw slots the underlying OS listing
would have returned (`size`; zero slots for a Failed reader). -/
theorem C8_drain_length_bounded (r : ReadDir ε α) :
    r.drain.length ≤ r.size := by
  cases r with
  | Err => rw [drain_Err]; exact Nat.le_refl 0
  | Ok rd =>
    rw [drain_Ok]
    exact List.length_filterMap_le slotEntry rd

/-- C9: an Opened reader yields exactly the valid entries of the raw OS
listing in the OS-supplied order: draining equals `filterMap` over the raw
slot list, i.e. the subsequence of OS-reported-valid entries with their
relative order preserved and nothing sorted or reordered. -/
theorem C9_os_order_preserved (rd : List (Except ε α)) :
    (ReadDir.Ok rd).drain = rd.filterMap slotEntry :=
  drain_Ok rd

/-- C10: no `next` call ever changes the reader's variant tag: after any
number `n` of calls, the reader is Opened iff it started Opened — so a
reader constructed Opened stays in the `Ok` variant forever, and the `Err`
variant can only come from `read_dir` at open time. -/
theorem C10_variant_tag_stable (r : ReadDir ε α) (n : Nat) :
    ((ReadDir.next r).2).isOpened = r.isOpened ∧
    (ReadDir.advance n r).isOpened = r.isOpened :=
  ⟨next_snd_isOpened r, advance_isOpened n r⟩

end LazyFS
